import Mathlib

/-!
Verification of the gene-coverage aggregation pipeline of
`streamlit_app.py` (GenePanel repository).

The pipeline is shallowly embedded: pandas data frames become lists of
structures, missing cells (NaN) become `Option` values or an explicit
`missing` constructor, and every numeric column is modelled by `ℚ`.
Python string operations are modelled on `String.data` (lists of
characters) so that all definitions are executable.  Each definition is
translated from the corresponding block of the source file; the line
numbers in the doc comments refer to `streamlit_app.py`.
-/

set_option maxHeartbeats 1000000

namespace GenePanel

/-- Characters of `l` strictly before the first occurrence of `c`
(all of `l` when `c` does not occur): models `s.split(c)[0]`. -/
def takeUntil (c : Char) : List Char → List Char
  | [] => []
  | d :: ds => if d = c then [] else d :: takeUntil c ds

/-- The part of `s` before the first occurrence of `c`;
models python `s.split(c)[0]`. -/
def strBefore (c : Char) (s : String) : String := ⟨takeUntil c s.data⟩

/-- Models the python membership test `c in s` on a string. -/
def strContainsChar (s : String) (c : Char) : Bool := s.data.any (fun d => d = c)

/-- Models python `s.startswith(p)` / pandas `.str.startswith(p)`. -/
def strStartsWith (s p : String) : Bool := p.data.isPrefixOf s.data

/-- Models python `s.strip()` / pandas `.str.strip()`. -/
def strStrip (s : String) : String :=
  ⟨((s.data.dropWhile Char.isWhitespace).reverse.dropWhile Char.isWhitespace).reverse⟩

/-- Lexicographic comparison of two character lists by code point. -/
def charListLt : List Char → List Char → Bool
  | [], [] => false
  | [], _ :: _ => true
  | _ :: _, [] => false
  | a :: as, b :: bs => if a = b then charListLt as bs else decide (a < b)

/-- Lexicographic strict order on strings (the order the pandas
`sort_values` / sorted `groupby` keys use). -/
def strLtb (s t : String) : Bool := charListLt s.data t.data

/-- Non-strict lexicographic order on strings. -/
def strLeb (s t : String) : Bool := ! strLtb t s

/-- Keep the first occurrence of every key `f x`, dropping later
elements whose key was already seen; `seen` accumulates the keys met so
far.  Models pandas `drop_duplicates` (and
`drop_duplicates(subset=..., keep="first")` with `f` the subset
projection). -/
def dedupByKey {α β : Type} [DecidableEq β] (f : α → β) (seen : List β) : List α → List α
  | [] => []
  | x :: xs =>
    if f x ∈ seen then dedupByKey f seen xs
    else x :: dedupByKey f (f x :: seen) xs

/-- First-occurrence deduplication of a list (pandas `drop_duplicates`). -/
def dedupFirst {α : Type} [DecidableEq α] (l : List α) : List α :=
  dedupByKey id [] l

/-- Insert a string into a list before the first element that is not
smaller than it. -/
def insertStr (s : String) : List String → List String
  | [] => [s]
  | t :: ts => if strLeb s t then s :: t :: ts else t :: insertStr s ts

/-- Insertion sort on strings, ascending; models `sort_values` and the
sorted keys of pandas `groupby`. -/
def sortStrings : List String → List String
  | [] => []
  | s :: ss => insertStr s (sortStrings ss)

/-- Minimum of a list of rationals (0 on the empty list, which the
pipeline never evaluates): models pandas `Series.min()`. -/
def qmin : List ℚ → ℚ
  | [] => 0
  | x :: xs => xs.foldl min x

/-- Maximum of a list of rationals (0 on the empty list, which the
pipeline never evaluates): models pandas `Series.max()`. -/
def qmax : List ℚ → ℚ
  | [] => 0
  | x :: xs => xs.foldl max x

/-- Models pandas `Series.round(2)` on one value: round to two decimal
places. -/
def roundTo2 (q : ℚ) : ℚ := (⌊q * 100 + 1 / 2⌋ : ℚ) / 100

/-- Mean of a list of rationals, `none` on the empty list: models a
pandas group mean whose NaN entries were already removed (`skipna`);
a group with no numeric value at all gets NaN (`none`). -/
def meanOpt (l : List ℚ) : Option ℚ :=
  match l with
  | [] => none
  | _ => some (l.sum / (l.length : ℚ))

/-- A cell of a coverage column as it sits in a source table before
`pd.to_numeric(..., errors="coerce")`: a numeric value, a piece of text
that does not parse as a number, or a missing value (NaN). -/
inductive CellVal : Type where
  | num (q : ℚ)
  | txt (s : String)
  | missing
deriving DecidableEq

/-- Models `pd.to_numeric(col, errors="coerce")` applied to one cell:
numeric cells keep their value, non-numeric text and NaN become missing
(`none`). -/
def toNumeric : CellVal → Option ℚ
  | CellVal.num q => some q
  | CellVal.txt _ => none
  | CellVal.missing => none

/-- Lines 46-55: extract the first gene name from a comma- or
semicolon-separated value.  A missing cell (NaN, not a string) maps to
`None`. -/
def extract_gene_name : Option String → Option String
  | some s =>
    if strContainsChar s ',' then some (strBefore ',' s)
    else if strContainsChar s ';' then some (strBefore ';' s)
    else some s
  | none => none

/-- One row of the raw per-region Excel table, restricted to the
columns `preprocess_excel_cached` reads.  `geneNameRaw` is the required
column `Gene Name`; the numeric columns are modelled as total rationals
(a well-formed sheet). -/
structure RawRow : Type where
  geneNames : Option String
  aliases : Option String
  geneNameRaw : Option String
  name : Option String
  geneIDs : Option String
  countedBases : ℚ
  meanDepth : ℚ
  minDepth : ℚ
  maxDepth : ℚ
  perc1x : ℚ
deriving DecidableEq

/-- A gene identity key: the `(Gene Names, Aliases, Gene_Name)` triple
with NaN filled by the empty string (line 90). -/
abbrev GeneKey := String × String × String

/-- Line 90: the identity triple of a row,
`data[["Gene Names", "Aliases", "Gene_Name"]].fillna("")`, where the
`Gene_Name` column was produced on line 87 by `extract_gene_name`. -/
def keyOfRow (r : RawRow) : GeneKey :=
  (r.geneNames.getD "", r.aliases.getD "", (extract_gene_name r.geneNameRaw).getD "")

/-- Lines 98-105: the rows selected for one identity key.  A non-empty
`Gene Names` selects by equality on the raw `Gene Names` column; else a
non-empty `Aliases` selects on the raw `Aliases` column; else a
non-empty normalized name selects on the raw `Name` column
(`data[data["Name"] == name]`, line 103); an all-empty key is skipped
(`continue`, line 105, modelled by `none`). -/
def selectRows (rows : List RawRow) (k : GeneKey) : Option (List RawRow) :=
  if k.1 ≠ "" then some (rows.filter (fun r => decide (r.geneNames = some k.1)))
  else if k.2.1 ≠ "" then some (rows.filter (fun r => decide (r.aliases = some k.2.1)))
  else if k.2.2 ≠ "" then some (rows.filter (fun r => decide (r.name = some k.2.2)))
  else none

/-- Line 107: `gene_data["Counted Bases"].sum()`. -/
def sumCB (l : List RawRow) : ℚ := (l.map RawRow.countedBases).sum

/-- Line 111 numerator: `(gene_data["Mean Depth"] * gene_data["Counted Bases"]).sum()`. -/
def wsumDepth (l : List RawRow) : ℚ := (l.map (fun r => r.meanDepth * r.countedBases)).sum

/-- Line 112 numerator: `(gene_data["% 1x"] * gene_data["Counted Bases"]).sum()`. -/
def wsumPerc (l : List RawRow) : ℚ := (l.map (fun r => r.perc1x * r.countedBases)).sum

/-- Line 119: `gene_data["Name"].iloc[0]` (the group is non-empty
whenever this is evaluated). -/
def headName (l : List RawRow) : Option String :=
  match l with
  | [] => none
  | r :: _ => r.name

/-- Line 120: `gene_data["Gene IDs"].iloc[0]`. -/
def headGeneIDs (l : List RawRow) : Option String :=
  match l with
  | [] => none
  | r :: _ => r.geneIDs

/-- One emitted gene summary row (lines 114-126; the constant
`Region = "total"` column is omitted). -/
structure SummaryRow : Type where
  refName : Option String
  aliases : Option String
  geneName : Option String
  name : Option String
  geneIDs : Option String
  countedBases : ℚ
  meanDepth : ℚ
  minDepth : ℚ
  maxDepth : ℚ
  perc1x : ℚ
deriving DecidableEq

/-- Lines 94-127, body of the loop for one identity key: select the
key's rows, skip the key when it selects nothing (all-empty key) or
when the counted-bases total is zero (line 108), else emit the summary
row with the weighted statistics of lines 111-125. -/
def aggregateKey (rows : List RawRow) (k : GeneKey) : Option SummaryRow :=
  match selectRows rows k with
  | none => none
  | some gd =>
    if sumCB gd = 0 then none
    else some
      { refName := if k.1 = "" then none else some k.1
        aliases := if k.2.1 = "" then none else some k.2.1
        geneName := if k.2.2 = "" then none else some k.2.2
        name := headName gd
        geneIDs := headGeneIDs gd
        countedBases := sumCB gd
        meanDepth := wsumDepth gd / sumCB gd
        minDepth := qmin (gd.map RawRow.minDepth)
        maxDepth := qmax (gd.map RawRow.maxDepth)
        perc1x := wsumPerc gd / sumCB gd }

/-- Lines 89-129: the Raw Coverage Aggregator.  Distinct identity keys
in first-occurrence order (`drop_duplicates`, line 91), one summary row
per surviving key. -/
def preprocess_excel_cached (rows : List RawRow) : List SummaryRow :=
  (dedupFirst (rows.map keyOfRow)).filterMap (aggregateKey rows)

/-- The identity key a summary row carries (inverts the
`x if x else None` encoding of lines 116-118). -/
def keyOfSummary (s : SummaryRow) : GeneKey :=
  (s.refName.getD "", s.aliases.getD "", s.geneName.getD "")

/-- Every field of a summary row except the order-sensitive passthrough
columns `Name` and `Gene IDs` (which copy `iloc[0]` of the group). -/
def numView (s : SummaryRow) :
    Option String × Option String × Option String × ℚ × ℚ × ℚ × ℚ × ℚ :=
  (s.refName, s.aliases, s.geneName, s.countedBases, s.meanDepth,
    s.minDepth, s.maxDepth, s.perc1x)

/-- The group the SPEC's words prescribe for the third precedence
branch: all records sharing the given normalized primary name
(spec §3 "then normalized name", claim C2).  Stated for comparison with
`selectRows`, which the source builds from the raw `Name` column
instead. -/
def specNormGroup (rows : List RawRow) (n : String) : List RawRow :=
  rows.filter (fun r => decide ((extract_gene_name r.geneNameRaw).getD "" = n))

/-- One row of the coverage table entering the panel filter, restricted
to the columns the filter block reads: `Gene_Name`, `Ref Name` and the
resolved coverage column. -/
structure CovRow : Type where
  geneName : Option String
  refName : Option String
  cov : CellVal
deriving DecidableEq

/-- Pandas `Series.isin(panel)` on one cell: NaN is in no panel. -/
def isinPanel (v : Option String) (panel : List String) : Bool :=
  match v with
  | some s => panel.contains s
  | none => false

/-- Line 443: `df["Gene_Name"].isin(panel_genes) | df["Ref Name"].isin(panel_genes)`. -/
def keepRow (panel : List String) (r : CovRow) : Bool :=
  isinPanel r.geneName panel || isinPanel r.refName panel

/-- Line 444: `df_filtered["Gene_Name"].fillna(df_filtered["Ref Name"])`
for one row — `fillna` replaces only missing values, not empty strings. -/
def resolveID (r : CovRow) : Option String :=
  match r.geneName with
  | some s => some s
  | none => r.refName

/-- Line 445 predicate: `~ Gene_ID.fillna("").str.startswith("Intron:")`. -/
def notIntron (g : Option String) : Bool :=
  ! strStartsWith (g.getD "") "Intron:"

/-- Lines 443-445: panel membership filter followed by the Intron
exclusion on the resolved identifier. -/
def filteredRows (rows : List CovRow) (panel : List String) : List CovRow :=
  (rows.filter (keepRow panel)).filter (fun r => notIntron (resolveID r))

/-- The `(Gene_ID, Perc_1x)` projection of the filtered table
(line 444 and line 446, `pd.to_numeric(..., errors="coerce")`). -/
def panelEntries (rows : List CovRow) (panel : List String) :
    List (Option String × Option ℚ) :=
  (filteredRows rows panel).map (fun r => (resolveID r, toNumeric r.cov))

/-- The non-missing `Perc_1x` values of the group keyed by `k`
(pandas group means skip NaN). -/
def valsFor (es : List (Option String × Option ℚ)) (k : String) : List ℚ :=
  (es.filter (fun e => decide (e.1 = some k))).filterMap Prod.snd

/-- The group keys of `groupby("Gene_ID")` followed by
`sort_values("Gene_ID")` (lines 448-450): the distinct non-NaN
identifiers, sorted ascending (pandas `groupby` drops NaN keys). -/
def groupKeys (es : List (Option String × Option ℚ)) : List String :=
  sortStrings (dedupFirst (es.filterMap Prod.fst))

/-- One row of the grouped per-gene output table (`Gene_ID`, `Perc_1x`);
`perc1x = none` models a NaN mean. -/
structure GroupedRow : Type where
  gid : String
  perc1x : Option ℚ
deriving DecidableEq

/-- Lines 443-450: the Panel Filter & Grouper.  One output row per
distinct resolved identifier, carrying the mean of the group's
non-missing coverage values rounded to two decimals, sorted by
identifier. -/
def panelFilterGroup (rows : List CovRow) (panel : List String) : List GroupedRow :=
  (groupKeys (panelEntries rows panel)).map (fun k =>
    { gid := k
      perc1x := (meanOpt (valsFor (panelEntries rows panel) k)).map roundTo2 })

/-- The below-threshold test used at lines 213/225 (`percent < 90`,
red styling) and line 460 (`Perc_1x < 90`, the Low Coverage metric). -/
def isLowCoverage (q : ℚ) : Bool := decide (q < 90)

/-- Line 197-201: the percentage value a gene's Word-table cell uses —
`float(v)` when the cell is not NaN, else `0.0`. -/
def wordPercent (v : Option ℚ) : ℚ := v.getD 0

/-- Line 213: whether the gene's run in the Word table is coloured red. -/
def geneRunIsRed (v : Option ℚ) : Bool := isLowCoverage (wordPercent v)

/-- Line 460: `len(df_grouped[df_grouped["Perc_1x"] < 90])` — a NaN
mean compares false and is not counted. -/
def lowCoverageCount (l : List GroupedRow) : Nat :=
  (l.filter (fun r =>
    match r.perc1x with
    | some q => isLowCoverage q
    | none => false)).length

/-- One row of the mitochondrial Excel file, restricted to the columns
the ingestion block keeps: the `Name` cell and the matched coverage
cell (renamed `% 1x` on line 354). -/
structure MitoRaw : Type where
  name : Option String
  cov : CellVal
deriving DecidableEq

/-- Line 363: `mito_df["Name"].astype(str).str.split("/").str[0].str.strip()`;
`astype(str)` renders NaN as the literal string `"nan"`. -/
def mitoGeneID (v : Option String) : String :=
  strStrip (strBefore '/' (match v with | some s => s | none => "nan"))

/-- Lines 363-383: extract the gene identifier, convert the coverage to
numeric, drop NaN-coverage rows, round to two decimals, and drop rows
whose (already stripped) identifier is empty. -/
def mitoIngest (rows : List MitoRaw) : List GroupedRow :=
  rows.filterMap (fun r =>
    match toNumeric r.cov with
    | none => none
    | some q =>
      if strStrip (mitoGeneID r.name) = "" then none
      else some { gid := mitoGeneID r.name, perc1x := some (roundTo2 q) })

/-- Lines 490-499: concatenate the panel table (first) with the
auxiliary table and drop duplicate `Gene_ID`s keeping the first
occurrence. -/
def mergeTables (primary aux : List GroupedRow) : List GroupedRow :=
  dedupByKey GroupedRow.gid [] (primary ++ aux)

/-- How one grouped output row re-enters the Filter & Grouper when its
CSV export (`Gene_ID`, `Perc_1x`) is resubmitted as a pre-aggregated
coverage table: the identifier is the primary name, there is no
alternate reference name, and the coverage cell holds the rounded mean
(NaN when the mean was NaN). -/
def reingestRow (g : GroupedRow) : CovRow :=
  { geneName := some g.gid
    refName := none
    cov :=
      match g.perc1x with
      | some q => CellVal.num q
      | none => CellVal.missing }

/-- A region record whose three identity fields are all empty (`Gene
Names` and `Aliases` NaN, `Gene Name` NaN) but whose raw `Name` column
holds `"X"`; it carries 7 counted bases. -/
def rowNoKey : RawRow :=
  { geneNames := none, aliases := none, geneNameRaw := none, name := some "X"
    geneIDs := none, countedBases := 7, meanDepth := 1, minDepth := 1
    maxDepth := 1, perc1x := 50 }

/-- A region record whose normalized primary name is `"X"` (only the
`Gene Name` column is set) and whose `Name` column is also `"X"`. -/
def rowKeyX : RawRow :=
  { geneNames := none, aliases := none, geneNameRaw := some "X", name := some "X"
    geneIDs := none, countedBases := 10, meanDepth := 1, minDepth := 1
    maxDepth := 1, perc1x := 50 }

/-- A record whose normalized primary name is `"X"` but whose raw
`Name` column is `"Y"`. -/
def rowNormX : RawRow :=
  { geneNames := none, aliases := none, geneNameRaw := some "X", name := some "Y"
    geneIDs := none, countedBases := 10, meanDepth := 1, minDepth := 1
    maxDepth := 1, perc1x := 50 }

/-- A record whose normalized primary name is `"Z"` but whose raw
`Name` column is `"X"`. -/
def rowNameX : RawRow :=
  { geneNames := none, aliases := none, geneNameRaw := some "Z", name := some "X"
    geneIDs := none, countedBases := 20, meanDepth := 1, minDepth := 1
    maxDepth := 1, perc1x := 50 }

/-- A coverage row whose `Gene_Name` cell holds the empty string (so it
is present, not NaN) while `Ref Name` holds the panel gene. -/
def covEmptyName : CovRow :=
  { geneName := some "", refName := some "BRCA1", cov := CellVal.num 50 }

/-- A mitochondrial row whose `Name` starts with `Intron:`. -/
def mitoIntron : MitoRaw :=
  { name := some "Intron:MT-X/exon1", cov := CellVal.num 50 }

/-- A kept row whose coverage cell is non-numeric text. -/
def covBadA : CovRow := { geneName := some "A", refName := none, cov := CellVal.txt "LOW" }

def covA80 : CovRow := { geneName := some "A", refName := none, cov := CellVal.num 80 }

def covA100 : CovRow := { geneName := some "A", refName := none, cov := CellVal.num 100 }

/-- First raw region of gene `X`: 100 counted bases at 80 percent 1x. -/
def rawX1 : RawRow :=
  { geneNames := some "X", aliases := none, geneNameRaw := some "X", name := some "X"
    geneIDs := none, countedBases := 100, meanDepth := 5, minDepth := 2
    maxDepth := 30, perc1x := 80 }

/-- Second raw region of gene `X`: 300 counted bases at 100 percent 1x. -/
def rawX2 : RawRow :=
  { geneNames := some "X", aliases := none, geneNameRaw := some "X", name := some "X"
    geneIDs := none, countedBases := 300, meanDepth := 6, minDepth := 1
    maxDepth := 40, perc1x := 100 }

/-- A coverage row whose `Gene_Name` cell is missing (NaN), with
`Ref Name` `"BRCA1"`. -/
def covNoName : CovRow :=
  { geneName := none, refName := some "BRCA1", cov := CellVal.num 50 }

/-- A raw region of gene `G` whose `Name` column is `"A"`. -/
def rawG1 : RawRow :=
  { geneNames := some "G", aliases := none, geneNameRaw := some "G", name := some "A"
    geneIDs := none, countedBases := 10, meanDepth := 1, minDepth := 1
    maxDepth := 1, perc1x := 50 }

/-- A raw region of gene `G` whose `Name` column is `"B"`. -/
def rawG2 : RawRow :=
  { geneNames := some "G", aliases := none, geneNameRaw := some "G", name := some "B"
    geneIDs := none, countedBases := 10, meanDepth := 1, minDepth := 1
    maxDepth := 1, perc1x := 50 }

theorem dedupByKey_countP {α β : Type} [DecidableEq β] (f : α → β) (b : β) :
    ∀ (l : List α) (seen : List β),
      (dedupByKey f seen l).countP (fun x => decide (f x = b)) =
        if b ∉ seen ∧ ∃ x ∈ l, f x = b then 1 else 0 := by
  intro l
  induction l with
  | nil => intro seen; simp [dedupByKey]
  | cons x xs ih =>
    intro seen
    rw [dedupByKey]
    by_cases hx : f x ∈ seen
    · rw [if_pos hx, ih]
      refine if_congr ⟨?_, ?_⟩ rfl rfl
      · rintro ⟨h1, y, hy, hfy⟩
        exact ⟨h1, y, List.mem_cons_of_mem _ hy, hfy⟩
      · rintro ⟨h1, y, hy, hfy⟩
        rcases List.mem_cons.mp hy with rfl | hy
        · exact absurd (hfy ▸ hx) h1
        · exact ⟨h1, y, hy, hfy⟩
    · rw [if_neg hx, List.countP_cons, ih]
      by_cases hfb : f x = b
      · have hb : b ∉ seen := fun h => hx (hfb ▸ h)
        have hbx : b ∈ f x :: seen := by
          rw [hfb]; exact List.mem_cons_self b seen
        rw [if_neg (show ¬(b ∉ f x :: seen ∧ ∃ y ∈ xs, f y = b) from fun h => h.1 hbx)]
        rw [if_pos (show b ∉ seen ∧ ∃ y ∈ x :: xs, f y = b from
          ⟨hb, x, List.mem_cons_self x xs, hfb⟩)]
        simp [hfb]
      · have hd : (decide (f x = b)) = false := by simp [hfb]
        rw [hd, if_neg Bool.false_ne_true, Nat.add_zero]
        refine if_congr ⟨?_, ?_⟩ rfl rfl
        · rintro ⟨h1, y, hy, hfy⟩
          exact ⟨fun h => h1 (List.mem_cons_of_mem _ h), y, List.mem_cons_of_mem _ hy, hfy⟩
        · rintro ⟨h1, y, hy, hfy⟩
          rcases List.mem_cons.mp hy with rfl | hy
          · exact absurd hfy hfb
          · refine ⟨fun h => ?_, y, hy, hfy⟩
            rcases List.mem_cons.mp h with h | h
            · exact hfb h.symm
            · exact h1 h

theorem dedupByKey_find? {α β : Type} [DecidableEq β] (f : α → β) (b : β) :
    ∀ (l : List α) (seen : List β),
      (dedupByKey f seen l).find? (fun x => decide (f x = b)) =
        if b ∈ seen then none else l.find? (fun x => decide (f x = b)) := by
  intro l
  induction l with
  | nil => intro seen; simp [dedupByKey]
  | cons x xs ih =>
    intro seen
    rw [dedupByKey]
    by_cases hfb : f x = b
    · have hd : (decide (f x = b)) = true := by simp [hfb]
      by_cases hx : f x ∈ seen
      · rw [if_pos hx, ih, if_pos (hfb ▸ hx), if_pos (hfb ▸ hx)]
      · rw [if_neg hx, List.find?_cons, hd,
          if_neg (show ¬ b ∈ seen from fun h => hx (hfb ▸ h)), List.find?_cons, hd]
    · have hd : (decide (f x = b)) = false := by simp [hfb]
      by_cases hx : f x ∈ seen
      · rw [if_pos hx, ih]
        by_cases hb : b ∈ seen
        · rw [if_pos hb, if_pos hb]
        · rw [if_neg hb, if_neg hb, List.find?_cons, hd]
      · rw [if_neg hx, List.find?_cons, hd, ih]
        have hbx : (b ∈ f x :: seen) ↔ b ∈ seen := by
          simp only [List.mem_cons, or_iff_right_iff_imp]
          intro h; exact absurd h.symm hfb
        by_cases hb : b ∈ seen
        · rw [if_pos (hbx.mpr hb), if_pos hb]
        · rw [if_neg (fun h => hb (hbx.mp h)), if_neg hb, List.find?_cons, hd]

theorem mem_dedupByKey_id {α : Type} [DecidableEq α] :
    ∀ (l : List α) (seen : List α) (a : α),
      a ∈ dedupByKey id seen l ↔ a ∈ l ∧ a ∉ seen := by
  intro l
  induction l with
  | nil => intro seen a; simp [dedupByKey]
  | cons x xs ih =>
    intro seen a
    rw [dedupByKey]
    simp only [id_eq]
    by_cases hx : x ∈ seen
    · rw [if_pos hx, ih]
      simp only [List.mem_cons]
      constructor
      · rintro ⟨h1, h2⟩; exact ⟨Or.inr h1, h2⟩
      · rintro ⟨h1 | h1, h2⟩
        · exact absurd (h1 ▸ hx) h2
        · exact ⟨h1, h2⟩
    · rw [if_neg hx, List.mem_cons, ih]
      simp only [List.mem_cons]
      constructor
      · rintro (rfl | ⟨h1, h2⟩)
        · exact ⟨Or.inl rfl, hx⟩
        · exact ⟨Or.inr h1, fun h => h2 (Or.inr h)⟩
      · rintro ⟨h1 | h1, h2⟩
        · exact Or.inl h1
        · by_cases hax : a = x
          · exact Or.inl hax
          · exact Or.inr ⟨h1, fun h => (h.elim hax h2 : False)⟩

theorem nodup_map_dedupByKey {α β : Type} [DecidableEq β] (f : α → β) :
    ∀ (l : List α) (seen : List β),
      ((dedupByKey f seen l).map f).Nodup ∧
        ∀ b ∈ (dedupByKey f seen l).map f, b ∉ seen := by
  intro l
  induction l with
  | nil => intro seen; simp [dedupByKey]
  | cons x xs ih =>
    intro seen
    rw [dedupByKey]
    by_cases hx : f x ∈ seen
    · rw [if_pos hx]; exact ih seen
    · rw [if_neg hx]
      obtain ⟨hnd, hns⟩ := ih (f x :: seen)
      simp only [List.map_cons, List.nodup_cons]
      refine ⟨⟨fun h => (hns _ h) (List.mem_cons_self _ _), hnd⟩, ?_⟩
      intro b hb
      rcases List.mem_cons.mp hb with rfl | hb
      · exact hx
      · exact fun h => (hns b hb) (List.mem_cons_of_mem _ h)

theorem find?_or_append {α : Type} (p : α → Bool) :
    ∀ (l₁ l₂ : List α), (l₁ ++ l₂).find? p = (l₁.find? p).or (l₂.find? p) := by
  intro l₁ l₂
  induction l₁ with
  | nil => simp
  | cons x xs ih =>
    rw [List.cons_append, List.find?_cons, List.find?_cons]
    cases hp : p x
    · simp only [Option.or]; exact ih
    · simp

/-- C5: merging keeps exactly one row per identifier, the first
occurrence in the primary-then-auxiliary concatenation, so an
identifier present in both tables keeps the primary coverage value. -/
theorem c5_merge_primary_wins :
    (∀ (p a : List GroupedRow) (g : String),
        (mergeTables p a).countP (fun r => decide (r.gid = g)) =
          if ∃ r ∈ p ++ a, r.gid = g then 1 else 0) ∧
    (∀ (p a : List GroupedRow) (g : String),
        (mergeTables p a).find? (fun r => decide (r.gid = g)) =
          (p.find? (fun r => decide (r.gid = g))).or
            (a.find? (fun r => decide (r.gid = g)))) ∧
    mergeTables [{ gid := "BRCA1", perc1x := some 95 }]
        [{ gid := "BRCA1", perc1x := some 10 }] =
      [{ gid := "BRCA1", perc1x := some 95 }] := by
  refine ⟨?_, ?_, by decide⟩
  · intro p a g
    rw [mergeTables, dedupByKey_countP]
    refine if_congr ⟨fun h => h.2, fun h => ⟨List.not_mem_nil g, h⟩⟩ rfl rfl
  · intro p a g
    rw [mergeTables, dedupByKey_find?, if_neg (List.not_mem_nil g), find?_or_append]

/-- C6: a gene is classified low-coverage exactly when its aggregate
coverage is strictly below 90; coverage 90.00 is adequate and 89.99 is
low, in both the Word-table red styling and the Low Coverage metric. -/
theorem c6_threshold_strictly_below_90 :
    (∀ q : ℚ, isLowCoverage q = true ↔ q < 90) ∧
    (∀ q : ℚ, geneRunIsRed (some q) = isLowCoverage q) ∧
    isLowCoverage 90 = false ∧
    isLowCoverage (8999 / 100) = true ∧
    lowCoverageCount [{ gid := "G", perc1x := some 90 }] = 0 ∧
    lowCoverageCount [{ gid := "G", perc1x := some (8999 / 100) }] = 1 := by
  refine ⟨fun q => by simp [isLowCoverage], fun q => rfl, ?_, ?_, ?_, ?_⟩
  · simp [isLowCoverage]
  · norm_num [isLowCoverage]
  · norm_num [lowCoverageCount, isLowCoverage, List.filter]
  · norm_num [lowCoverageCount, isLowCoverage, List.filter]

theorem insertStr_perm (s : String) : ∀ l : List String, (insertStr s l).Perm (s :: l) := by
  intro l
  induction l with
  | nil => simp [insertStr]
  | cons t ts ih =>
    rw [insertStr]
    by_cases h : strLeb s t = true
    · rw [if_pos h]
    · rw [if_neg h]
      exact ((ih.cons t).trans (List.Perm.swap s t ts))

theorem sortStrings_perm : ∀ l : List String, (sortStrings l).Perm l := by
  intro l
  induction l with
  | nil => simp [sortStrings]
  | cons s ss ih =>
    rw [sortStrings]
    exact (insertStr_perm s (sortStrings ss)).trans (ih.cons s)

theorem mem_groupKeys (es : List (Option String × Option ℚ)) (k : String) :
    k ∈ groupKeys es ↔ some k ∈ es.map Prod.fst := by
  rw [groupKeys]
  rw [(sortStrings_perm _).mem_iff, dedupFirst, mem_dedupByKey_id]
  simp [List.mem_filterMap]

theorem dedupFirst_countP {α : Type} [DecidableEq α] (l : List α) (b : α) :
    (dedupFirst l).countP (fun x => decide (x = b)) = if b ∈ l then 1 else 0 := by
  rw [dedupFirst]
  have h := dedupByKey_countP (id : α → α) b l []
  simp only [id_eq] at h
  rw [h]
  refine if_congr ⟨?_, ?_⟩ rfl rfl
  · rintro ⟨-, x, hx, rfl⟩; exact hx
  · intro hb; exact ⟨List.not_mem_nil b, b, hb, rfl⟩

theorem mem_dedupFirst_iff {α : Type} [DecidableEq α] (l : List α) (a : α) :
    a ∈ dedupFirst l ↔ a ∈ l := by
  rw [dedupFirst, mem_dedupByKey_id]
  simp

theorem keyOfSummary_aggregateKey (rows : List RawRow) (k : GeneKey) (s : SummaryRow)
    (h : aggregateKey rows k = some s) : keyOfSummary s = k := by
  obtain ⟨g, a, n⟩ := k
  rw [aggregateKey] at h
  cases hsel : selectRows rows (g, a, n) with
  | none =>
    simp only [hsel] at h
    exact Option.noConfusion h
  | some gd =>
    simp only [hsel] at h
    by_cases hz : sumCB gd = 0
    · rw [if_pos hz] at h; cases h
    · rw [if_neg hz] at h
      injection h with h
      subst h
      rw [keyOfSummary]
      by_cases hg : g = "" <;> by_cases ha : a = "" <;> by_cases hn : n = "" <;>
        simp [hg, ha, hn]

theorem countP_filterMap_aggregateKey (rows : List RawRow) (k : GeneKey) :
    ∀ ks : List GeneKey,
      ((ks.filterMap (aggregateKey rows)).countP (fun s => decide (keyOfSummary s = k))) =
        if (aggregateKey rows k).isSome = true then
          ks.countP (fun x => decide (x = k)) else 0 := by
  intro ks
  induction ks with
  | nil => simp
  | cons a as ih =>
    cases hagg : aggregateKey rows a with
    | none =>
      rw [List.filterMap_cons_none hagg, ih, List.countP_cons]
      by_cases hak : a = k
      · subst hak
        rw [hagg]
        simp
      · have hd : (decide (a = k)) = false := by simp [hak]
        rw [hd, if_neg Bool.false_ne_true, Nat.add_zero]
    | some s =>
      have hks : keyOfSummary s = a := keyOfSummary_aggregateKey _ _ _ hagg
      rw [List.filterMap_cons_some hagg, List.countP_cons, List.countP_cons, ih]
      by_cases hak : a = k
      · subst hak
        have h1 : (decide (keyOfSummary s = a)) = true := by simp [hks]
        have h2 : (decide (a = a)) = true := by simp
        rw [h1, h2, hagg]
        simp
      · have h1 : (decide (keyOfSummary s = k)) = false := by simp [hks, hak]
        have h2 : (decide (a = k)) = false := by simp [hak]
        rw [h1, h2, if_neg Bool.false_ne_true, Nat.add_zero, Nat.add_zero]

theorem find?_filterMap_aggregateKey (rows : List RawRow) (k : GeneKey) :
    ∀ ks : List GeneKey,
      (ks.filterMap (aggregateKey rows)).find? (fun s => decide (keyOfSummary s = k)) =
        if k ∈ ks then aggregateKey rows k else none := by
  intro ks
  induction ks with
  | nil => simp
  | cons a as ih =>
    cases hagg : aggregateKey rows a with
    | none =>
      rw [List.filterMap_cons_none hagg, ih]
      by_cases hak : a = k
      · subst hak
        rw [if_pos (List.mem_cons_self a as)]
        by_cases hmem : a ∈ as
        · rw [if_pos hmem]
        · rw [if_neg hmem, hagg]
      · have hiff : (k ∈ a :: as) ↔ k ∈ as := by
          simp only [List.mem_cons, or_iff_right_iff_imp]
          intro h; exact absurd h.symm hak
        by_cases hmem : k ∈ as
        · rw [if_pos hmem, if_pos (hiff.mpr hmem)]
        · rw [if_neg hmem, if_neg (fun h => hmem (hiff.mp h))]
    | some s =>
      have hks : keyOfSummary s = a := keyOfSummary_aggregateKey _ _ _ hagg
      rw [List.filterMap_cons_some hagg, List.find?_cons]
      by_cases hak : a = k
      · subst hak
        have h1 : (decide (keyOfSummary s = a)) = true := by simp [hks]
        rw [h1, if_pos (List.mem_cons_self a as), hagg]
      · have h1 : (decide (keyOfSummary s = k)) = false := by simp [hks, hak]
        rw [h1, ih]
        have hiff : (k ∈ a :: as) ↔ k ∈ as := by
          simp only [List.mem_cons, or_iff_right_iff_imp]
          intro h; exact absurd h.symm hak
        by_cases hmem : k ∈ as
        · rw [if_pos hmem, if_pos (hiff.mpr hmem)]
        · rw [if_neg hmem, if_neg (fun h => hmem (hiff.mp h))]

theorem preprocess_countP (rows : List RawRow) (k : GeneKey) :
    (preprocess_excel_cached rows).countP (fun s => decide (keyOfSummary s = k)) =
      if (aggregateKey rows k).isSome = true ∧ k ∈ rows.map keyOfRow then 1 else 0 := by
  rw [preprocess_excel_cached, countP_filterMap_aggregateKey, dedupFirst_countP]
  by_cases hsome : (aggregateKey rows k).isSome = true
  · rw [if_pos hsome]
    by_cases hmem : k ∈ rows.map keyOfRow
    · rw [if_pos hmem, if_pos ⟨hsome, hmem⟩]
    · rw [if_neg hmem, if_neg (fun h => hmem h.2)]
  · rw [if_neg hsome, if_neg (fun h => hsome h.1)]

theorem preprocess_find? (rows : List RawRow) (k : GeneKey) :
    (preprocess_excel_cached rows).find? (fun s => decide (keyOfSummary s = k)) =
      if k ∈ rows.map keyOfRow then aggregateKey rows k else none := by
  rw [preprocess_excel_cached, find?_filterMap_aggregateKey]
  by_cases hmem : k ∈ rows.map keyOfRow
  · rw [if_pos ((mem_dedupFirst_iff _ k).mpr hmem), if_pos hmem]
  · rw [if_neg (fun h => hmem ((mem_dedupFirst_iff _ k).mp h)), if_neg hmem]

/-- C1: for a key selecting records `gd`, a zero counted-bases total
yields no summary row and no error, while a non-zero total yields
exactly one summary row whose statistics are the weighted means,
minimum and maximum of `gd`; the two-region gene `X` example
aggregates to weighted percent-1x 95. -/
theorem c1_weighted_aggregation (rows : List RawRow) (k : GeneKey) (gd : List RawRow)
    (hsel : selectRows rows k = some gd) :
    (sumCB gd = 0 →
      aggregateKey rows k = none ∧
      (preprocess_excel_cached rows).countP (fun s => decide (keyOfSummary s = k)) = 0) ∧
    (sumCB gd ≠ 0 → k ∈ rows.map keyOfRow →
      (preprocess_excel_cached rows).countP (fun s => decide (keyOfSummary s = k)) = 1 ∧
      (aggregateKey rows k).map SummaryRow.countedBases = some (sumCB gd) ∧
      (aggregateKey rows k).map SummaryRow.meanDepth = some (wsumDepth gd / sumCB gd) ∧
      (aggregateKey rows k).map SummaryRow.perc1x = some (wsumPerc gd / sumCB gd) ∧
      (aggregateKey rows k).map SummaryRow.minDepth = some (qmin (gd.map RawRow.minDepth)) ∧
      (aggregateKey rows k).map SummaryRow.maxDepth = some (qmax (gd.map RawRow.maxDepth))) ∧
    (preprocess_excel_cached [rawX1, rawX2]).map SummaryRow.perc1x = [95] := by
  refine ⟨?_, ?_, ?_⟩
  · intro hz
    have hagg : aggregateKey rows k = none := by
      rw [aggregateKey]
      simp only [hsel]
      rw [if_pos hz]
    refine ⟨hagg, ?_⟩
    rw [preprocess_countP, if_neg]
    rintro ⟨h, -⟩
    rw [hagg] at h
    cases h
  · intro hz hmem
    have hagg : aggregateKey rows k =
        some
          { refName := if k.1 = "" then none else some k.1
            aliases := if k.2.1 = "" then none else some k.2.1
            geneName := if k.2.2 = "" then none else some k.2.2
            name := headName gd
            geneIDs := headGeneIDs gd
            countedBases := sumCB gd
            meanDepth := wsumDepth gd / sumCB gd
            minDepth := qmin (gd.map RawRow.minDepth)
            maxDepth := qmax (gd.map RawRow.maxDepth)
            perc1x := wsumPerc gd / sumCB gd } := by
      rw [aggregateKey]
      simp only [hsel]
      rw [if_neg hz]
    refine ⟨?_, ?_, ?_, ?_, ?_, ?_⟩
    · rw [preprocess_countP, if_pos ⟨by rw [hagg]; rfl, hmem⟩]
    · rw [hagg]; rfl
    · rw [hagg]; rfl
    · rw [hagg]; rfl
    · rw [hagg]; rfl
    · rw [hagg]; rfl
  · have h1 : dedupFirst ([rawX1, rawX2].map keyOfRow) = [("X", "", "X")] := by decide
    have h2 : selectRows [rawX1, rawX2] ("X", "", "X") = some [rawX1, rawX2] := by decide
    have h3 : sumCB [rawX1, rawX2] = 400 := by norm_num [sumCB, rawX1, rawX2]
    rw [preprocess_excel_cached, h1]
    simp only [List.filterMap_cons, List.filterMap_nil, aggregateKey, h2, h3]
    rw [if_neg (by norm_num)]
    simp only [List.map_cons, List.map_nil]
    norm_num [wsumPerc, rawX1, rawX2]

theorem c1_weighted_aggregation_witness :
    selectRows [rawX1, rawX2] ("X", "", "X") = some [rawX1, rawX2] ∧
    (preprocess_excel_cached [rawX1, rawX2]).countP
        (fun s => decide (keyOfSummary s = ("X", "", "X"))) = 1 :=
  ⟨by decide,
    ((c1_weighted_aggregation [rawX1, rawX2] ("X", "", "X") [rawX1, rawX2]
      (by decide)).2.1 (by norm_num [sumCB, rawX1, rawX2]) (by decide)).1⟩

/-- C10 counterexample: the all-empty-identity record `rowNoKey` (7
counted bases, `Name = "X"`) does contribute to an output row: with it
the single summary row for the key `("", "", "X")` counts 17 bases,
without it only 10. -/
theorem c10_counterexample :
    keyOfRow rowNoKey = ("", "", "") ∧
    rowNoKey.countedBases = 7 ∧
    (preprocess_excel_cached [rowNoKey, rowKeyX]).map SummaryRow.countedBases = [17] ∧
    (preprocess_excel_cached [rowKeyX]).map SummaryRow.countedBases = [10] := by
  refine ⟨by decide, by norm_num [rowNoKey], ?_, ?_⟩
  · have h1 : dedupFirst ([rowNoKey, rowKeyX].map keyOfRow) =
        [("", "", ""), ("", "", "X")] := by decide
    have h2 : selectRows [rowNoKey, rowKeyX] ("", "", "X") = some [rowNoKey, rowKeyX] := by
      decide
    have h0 : selectRows [rowNoKey, rowKeyX] ("", "", "") = none := by decide
    have h3 : sumCB [rowNoKey, rowKeyX] = 17 := by norm_num [sumCB, rowNoKey, rowKeyX]
    rw [preprocess_excel_cached, h1]
    simp [aggregateKey, h0, h2, h3]
  · have h1 : dedupFirst ([rowKeyX].map keyOfRow) = [("", "", "X")] := by decide
    have h2 : selectRows [rowKeyX] ("", "", "X") = some [rowKeyX] := by decide
    have h3 : sumCB [rowKeyX] = 10 := by norm_num [sumCB, rowKeyX]
    rw [preprocess_excel_cached, h1]
    simp [aggregateKey, h2, h3]

/-- C10 amended: an all-empty-identity record generates no identity key
of its own — the all-empty key selects nothing and never emits a
summary row — though such a record can still feed another key's
aggregate through the raw `Name` column match of the third branch. -/
theorem c10_empty_key_emits_nothing (rows : List RawRow) :
    selectRows rows ("", "", "") = none ∧
    aggregateKey rows ("", "", "") = none ∧
    (preprocess_excel_cached rows).countP
        (fun s => decide (keyOfSummary s = ("", "", ""))) = 0 := by
  have h1 : selectRows rows ("", "", "") = none := by simp [selectRows]
  have h2 : aggregateKey rows ("", "", "") = none := by
    rw [aggregateKey]
    simp only [h1]
  refine ⟨h1, h2, ?_⟩
  rw [preprocess_countP, if_neg]
  rintro ⟨h, -⟩
  rw [h2] at h
  cases h

/-- C2 counterexample: for the key whose only non-empty component is
the normalized primary name `"X"`, the source selects the records whose
raw `Name` column is `"X"` (here `rowNameX`, normalized name `"Z"`),
not the records sharing the normalized primary name `"X"` (here
`rowNormX`). -/
theorem c2_counterexample :
    keyOfRow rowNormX = ("", "", "X") ∧
    selectRows [rowNormX, rowNameX] ("", "", "X") = some [rowNameX] ∧
    specNormGroup [rowNormX, rowNameX] "X" = [rowNormX] ∧
    ([rowNameX] : List RawRow) ≠ [rowNormX] := by decide

/-- C2 amended: grouping tests exact string equality in the fixed
precedence order, but the third branch matches the raw `Name` column
against the normalized primary name rather than the normalized primary
names themselves. -/
theorem c2_grouping_by_raw_name (rows : List RawRow) (g a n : String) (r : RawRow) :
    (g ≠ "" → selectRows rows (g, a, n) =
      some (rows.filter (fun x => decide (x.geneNames = some g)))) ∧
    (g = "" → a ≠ "" → selectRows rows (g, a, n) =
      some (rows.filter (fun x => decide (x.aliases = some a)))) ∧
    (g = "" → a = "" → n ≠ "" → selectRows rows (g, a, n) =
      some (rows.filter (fun x => decide (x.name = some n)))) ∧
    (r ∈ rows.filter (fun x => decide (x.name = some n)) ↔ r ∈ rows ∧ r.name = some n) := by
  refine ⟨fun hg => ?_, fun hg ha => ?_, fun hg ha hn => ?_, ?_⟩
  · rw [selectRows, if_pos hg]
  · rw [selectRows, if_neg (by simp [hg]), if_pos ha]
  · rw [selectRows, if_neg (by simp [hg]), if_neg (by simp [ha]), if_pos hn]
  · simp [List.mem_filter]

theorem c2_grouping_by_raw_name_witness :
    selectRows [rowNormX, rowNameX] ("", "", "X") =
      some ([rowNormX, rowNameX].filter (fun x => decide (x.name = some "X"))) :=
  (c2_grouping_by_raw_name [rowNormX, rowNameX] "" "" "X" rowNormX).2.2.1 rfl rfl
    (by decide)

/-- C3 counterexample: a kept row whose `Gene_Name` is present but
equal to the empty string resolves to the empty string, not to its
`Ref Name` `"BRCA1"`. -/
theorem c3_counterexample :
    panelFilterGroup [covEmptyName] ["BRCA1"] = [{ gid := "", perc1x := some 50 }] ∧
    covEmptyName.geneName = some "" ∧
    covEmptyName.refName = some "BRCA1" ∧
    ("" : String) ≠ "BRCA1" := by
  refine ⟨?_, by decide, by decide, by decide⟩
  have h1 : panelEntries [covEmptyName] ["BRCA1"] = [(some "", some 50)] := by decide
  have h2 : groupKeys [((some "" : Option String), (some (50 : ℚ) : Option ℚ))] = [""] := by
    decide
  have h3 : valsFor [((some "" : Option String), (some (50 : ℚ) : Option ℚ))] "" = [50] := by
    decide
  rw [panelFilterGroup, h1, h2, List.map_cons, List.map_nil, h3]
  norm_num [meanOpt, roundTo2]

/-- C3 amended: `Gene_ID` is the `Gene_Name` value whenever that cell
is present — even when it is the empty string — and falls back to
`Ref Name` only when `Gene_Name` is missing (pandas `fillna`). -/
theorem c3_gene_id_fillna (r : CovRow) (s : String) :
    (r.geneName = some s → resolveID r = some s) ∧
    (r.geneName = none → resolveID r = r.refName) ∧
    panelFilterGroup [covNoName] ["BRCA1"] = [{ gid := "BRCA1", perc1x := some 50 }] := by
  refine ⟨fun h => by rw [resolveID, h], fun h => by rw [resolveID, h], ?_⟩
  have h1 : panelEntries [covNoName] ["BRCA1"] = [(some "BRCA1", some 50)] := by decide
  have h2 : groupKeys [((some "BRCA1" : Option String), (some (50 : ℚ) : Option ℚ))] =
      ["BRCA1"] := by decide
  have h3 : valsFor [((some "BRCA1" : Option String), (some (50 : ℚ) : Option ℚ))]
      "BRCA1" = [50] := by decide
  rw [panelFilterGroup, h1, h2, List.map_cons, List.map_nil, h3]
  norm_num [meanOpt, roundTo2]

theorem c3_gene_id_fillna_witness :
    resolveID covEmptyName = some "" ∧ resolveID covNoName = covNoName.refName :=
  ⟨(c3_gene_id_fillna covEmptyName "").1 rfl, (c3_gene_id_fillna covNoName "").2.1 rfl⟩

/-- C4 counterexample: merging the auxiliary mitochondrial source can
put a `Gene_ID` beginning with `"Intron:"` into the final table — the
mitochondrial ingestion never applies the Intron exclusion. -/
theorem c4_counterexample :
    mergeTables (panelFilterGroup [] ["BRCA1"]) (mitoIngest [mitoIntron]) =
      [{ gid := "Intron:MT-X", perc1x := some 50 }] ∧
    strStartsWith "Intron:MT-X" "Intron:" = true := by
  refine ⟨?_, by decide⟩
  have hm : mitoIngest [mitoIntron] = [{ gid := "Intron:MT-X", perc1x := some 50 }] := by
    have hg : mitoGeneID (some "Intron:MT-X/exon1") = "Intron:MT-X" := by decide
    have hs : strStrip (mitoGeneID (some "Intron:MT-X/exon1")) = "Intron:MT-X" := by decide
    simp only [mitoIngest, mitoIntron, toNumeric, hg, hs, List.filterMap_cons,
      List.filterMap_nil, if_neg (show ¬ strStrip "Intron:MT-X" = "" by decide)]
    norm_num [roundTo2]
  have hp : panelFilterGroup [] ["BRCA1"] = [] := by decide
  rw [hm, hp]
  decide

/-- C4 amended: the panel-filtered grouped table itself never contains
a `Gene_ID` beginning with `"Intron:"`; the violation arises only
through the auxiliary merge. -/
theorem c4_no_intron_in_grouped (rows : List CovRow) (panel : List String)
    (g : GroupedRow) (hg : g ∈ panelFilterGroup rows panel) :
    strStartsWith g.gid "Intron:" = false := by
  rw [panelFilterGroup] at hg
  obtain ⟨k, hk, rfl⟩ := List.mem_map.mp hg
  rw [mem_groupKeys] at hk
  obtain ⟨e, he, hfst⟩ := List.mem_map.mp hk
  rw [panelEntries] at he
  obtain ⟨r, hr, rfl⟩ := List.mem_map.mp he
  dsimp only at hfst
  rw [filteredRows] at hr
  have hni := (List.mem_filter.mp hr).2
  rw [hfst] at hni
  rw [notIntron] at hni
  simp only [Option.getD_some] at hni
  dsimp only
  simpa using hni

theorem c4_no_intron_in_grouped_witness :
    ({ gid := "A", perc1x := none } : GroupedRow) ∈ panelFilterGroup [covBadA] ["A"] ∧
    strStartsWith (GroupedRow.gid { gid := "A", perc1x := none }) "Intron:" = false :=
  ⟨by decide, c4_no_intron_in_grouped [covBadA] ["A"] { gid := "A", perc1x := none }
    (by decide)⟩

/-- C9 counterexample: a gene all of whose kept rows carry non-numeric
coverage text appears in the grouped output with a missing (NaN)
coverage, which is not a finite number in the unit-percent range. -/
theorem c9_counterexample :
    panelFilterGroup [covBadA] ["A"] = [{ gid := "A", perc1x := none }] ∧
    toNumeric covBadA.cov = none := by
  exact ⟨by decide, by decide⟩

theorem foldl_min_mem : ∀ (xs : List ℚ) (a : ℚ), xs.foldl min a = a ∨ xs.foldl min a ∈ xs := by
  intro xs
  induction xs with
  | nil => intro a; exact Or.inl rfl
  | cons x xs ih =>
    intro a
    rcases ih (min a x) with h | h
    · rcases min_choice a x with hm | hm
      · exact Or.inl (by rw [List.foldl_cons, h, hm])
      · exact Or.inr (by rw [List.foldl_cons, h, hm]; exact List.mem_cons_self x xs)
    · exact Or.inr (List.mem_cons_of_mem x h)

theorem foldl_min_le : ∀ (xs : List ℚ) (a : ℚ),
    xs.foldl min a ≤ a ∧ ∀ y ∈ xs, xs.foldl min a ≤ y := by
  intro xs
  induction xs with
  | nil => intro a; exact ⟨le_refl a, by simp⟩
  | cons x xs ih =>
    intro a
    obtain ⟨h1, h2⟩ := ih (min a x)
    refine ⟨le_trans h1 (min_le_left a x), ?_⟩
    intro y hy
    rcases List.mem_cons.mp hy with rfl | hy
    · exact le_trans h1 (min_le_right a y)
    · exact h2 y hy

theorem qmin_mem : ∀ l : List ℚ, l ≠ [] → qmin l ∈ l := by
  intro l hl
  cases l with
  | nil => exact absurd rfl hl
  | cons x xs =>
    rw [qmin]
    rcases foldl_min_mem xs x with h | h
    · rw [h]; exact List.mem_cons_self x xs
    · exact List.mem_cons_of_mem x h

theorem qmin_le : ∀ (l : List ℚ) (y : ℚ), y ∈ l → qmin l ≤ y := by
  intro l y hy
  cases l with
  | nil => cases hy
  | cons x xs =>
    rw [qmin]
    rcases List.mem_cons.mp hy with rfl | hy
    · exact (foldl_min_le xs y).1
    · exact (foldl_min_le xs x).2 y hy

theorem qmin_perm (l l' : List ℚ) (hp : l.Perm l') : qmin l = qmin l' := by
  cases l with
  | nil =>
    rw [(List.Perm.eq_nil hp.symm : l' = [])]
  | cons x xs =>
    have hne : (x :: xs : List ℚ) ≠ [] := by simp
    have hne' : l' ≠ [] := by
      intro h
      rw [h] at hp
      exact hne (List.Perm.eq_nil hp)
    exact le_antisymm
      (qmin_le _ _ (hp.mem_iff.mpr (qmin_mem l' hne')))
      (qmin_le _ _ (hp.mem_iff.mp (qmin_mem _ hne)))

theorem foldl_max_mem : ∀ (xs : List ℚ) (a : ℚ), xs.foldl max a = a ∨ xs.foldl max a ∈ xs := by
  intro xs
  induction xs with
  | nil => intro a; exact Or.inl rfl
  | cons x xs ih =>
    intro a
    rcases ih (max a x) with h | h
    · rcases max_choice a x with hm | hm
      · exact Or.inl (by rw [List.foldl_cons, h, hm])
      · exact Or.inr (by rw [List.foldl_cons, h, hm]; exact List.mem_cons_self x xs)
    · exact Or.inr (List.mem_cons_of_mem x h)

theorem foldl_max_ge : ∀ (xs : List ℚ) (a : ℚ),
    a ≤ xs.foldl max a ∧ ∀ y ∈ xs, y ≤ xs.foldl max a := by
  intro xs
  induction xs with
  | nil => intro a; exact ⟨le_refl a, by simp⟩
  | cons x xs ih =>
    intro a
    obtain ⟨h1, h2⟩ := ih (max a x)
    refine ⟨le_trans (le_max_left a x) h1, ?_⟩
    intro y hy
    rcases List.mem_cons.mp hy with rfl | hy
    · exact le_trans (le_max_right a y) h1
    · exact h2 y hy

theorem qmax_mem : ∀ l : List ℚ, l ≠ [] → qmax l ∈ l := by
  intro l hl
  cases l with
  | nil => exact absurd rfl hl
  | cons x xs =>
    rw [qmax]
    rcases foldl_max_mem xs x with h | h
    · rw [h]; exact List.mem_cons_self x xs
    · exact List.mem_cons_of_mem x h

theorem qmax_ge : ∀ (l : List ℚ) (y : ℚ), y ∈ l → y ≤ qmax l := by
  intro l y hy
  cases l with
  | nil => cases hy
  | cons x xs =>
    rw [qmax]
    rcases List.mem_cons.mp hy with rfl | hy
    · exact (foldl_max_ge xs y).1
    · exact (foldl_max_ge xs x).2 y hy

theorem qmax_perm (l l' : List ℚ) (hp : l.Perm l') : qmax l = qmax l' := by
  cases l with
  | nil =>
    rw [(List.Perm.eq_nil hp.symm : l' = [])]
  | cons x xs =>
    have hne : (x :: xs : List ℚ) ≠ [] := by simp
    have hne' : l' ≠ [] := by
      intro h
      rw [h] at hp
      exact hne (List.Perm.eq_nil hp)
    exact le_antisymm
      (qmax_ge l' _ (hp.mem_iff.mp (qmax_mem _ hne)))
      (qmax_ge _ _ (hp.mem_iff.mpr (qmax_mem l' hne')))

theorem sumCB_perm (l l' : List RawRow) (hp : l.Perm l') : sumCB l = sumCB l' :=
  (hp.map RawRow.countedBases).sum_eq

theorem wsumDepth_perm (l l' : List RawRow) (hp : l.Perm l') : wsumDepth l = wsumDepth l' :=
  (hp.map _).sum_eq

theorem wsumPerc_perm (l l' : List RawRow) (hp : l.Perm l') : wsumPerc l = wsumPerc l' :=
  (hp.map _).sum_eq

theorem selectRows_perm (rows rows' : List RawRow) (hp : rows.Perm rows') (k : GeneKey) :
    (selectRows rows k = none ∧ selectRows rows' k = none) ∨
    (∃ gd gd', selectRows rows k = some gd ∧ selectRows rows' k = some gd' ∧ gd.Perm gd') := by
  rw [selectRows, selectRows]
  by_cases hg : k.1 ≠ ""
  · rw [if_pos hg, if_pos hg]
    exact Or.inr ⟨_, _, rfl, rfl, hp.filter _⟩
  · rw [if_neg hg, if_neg hg]
    by_cases ha : k.2.1 ≠ ""
    · rw [if_pos ha, if_pos ha]
      exact Or.inr ⟨_, _, rfl, rfl, hp.filter _⟩
    · rw [if_neg ha, if_neg ha]
      by_cases hn : k.2.2 ≠ ""
      · rw [if_pos hn, if_pos hn]
        exact Or.inr ⟨_, _, rfl, rfl, hp.filter _⟩
      · rw [if_neg hn, if_neg hn]
        exact Or.inl ⟨rfl, rfl⟩

theorem aggregateKey_numView_perm (rows rows' : List RawRow) (hp : rows.Perm rows')
    (k : GeneKey) :
    (aggregateKey rows k).map numView = (aggregateKey rows' k).map numView := by
  rcases selectRows_perm rows rows' hp k with ⟨h1, h2⟩ | ⟨gd, gd', h1, h2, hgd⟩
  · rw [aggregateKey, aggregateKey]
    simp only [h1, h2]
  · rw [aggregateKey, aggregateKey]
    simp only [h1, h2]
    have hsum : sumCB gd = sumCB gd' := sumCB_perm _ _ hgd
    by_cases hz : sumCB gd = 0
    · rw [if_pos hz, if_pos (show sumCB gd' = 0 from hsum ▸ hz)]
    · rw [if_neg hz, if_neg (show ¬ sumCB gd' = 0 from fun h => hz (hsum.trans h))]
      simp only [Option.map_some', numView]
      rw [hsum, wsumDepth_perm _ _ hgd, wsumPerc_perm _ _ hgd,
        qmin_perm _ _ (hgd.map RawRow.minDepth), qmax_perm _ _ (hgd.map RawRow.maxDepth)]

/-- C7 counterexample: swapping two regions of the same gene changes
the passthrough `Name` field of the emitted summary row (it copies the
first row of the group), so aggregation is not invariant to row order
field-for-field. -/
theorem c7_counterexample :
    ([rawG1, rawG2] : List RawRow).Perm [rawG2, rawG1] ∧
    (preprocess_excel_cached [rawG1, rawG2]).map SummaryRow.name = [some "A"] ∧
    (preprocess_excel_cached [rawG2, rawG1]).map SummaryRow.name = [some "B"] ∧
    preprocess_excel_cached [rawG1, rawG2] ≠ preprocess_excel_cached [rawG2, rawG1] := by
  have hA : (preprocess_excel_cached [rawG1, rawG2]).map SummaryRow.name = [some "A"] := by
    have h1 : dedupFirst ([rawG1, rawG2].map keyOfRow) = [("G", "", "G")] := by decide
    have h2 : selectRows [rawG1, rawG2] ("G", "", "G") = some [rawG1, rawG2] := by decide
    have h3 : sumCB [rawG1, rawG2] = 20 := by norm_num [sumCB, rawG1, rawG2]
    have h4 : headName [rawG1, rawG2] = some "A" := by decide
    rw [preprocess_excel_cached, h1]
    simp [aggregateKey, h2, h3, h4]
  have hB : (preprocess_excel_cached [rawG2, rawG1]).map SummaryRow.name = [some "B"] := by
    have h1 : dedupFirst ([rawG2, rawG1].map keyOfRow) = [("G", "", "G")] := by decide
    have h2 : selectRows [rawG2, rawG1] ("G", "", "G") = some [rawG2, rawG1] := by decide
    have h3 : sumCB [rawG2, rawG1] = 20 := by norm_num [sumCB, rawG2, rawG1]
    have h4 : headName [rawG2, rawG1] = some "B" := by decide
    rw [preprocess_excel_cached, h1]
    simp [aggregateKey, h2, h3, h4]
  refine ⟨List.Perm.swap rawG2 rawG1 [], hA, hB, fun heq => ?_⟩
  rw [heq, hB] at hA
  exact absurd hA (by decide)

/-- C7 amended: up to the order-sensitive passthrough fields `Name` and
`Gene IDs`, aggregation is invariant to input row order — for every
key, the summary found for it (if any) has the same identity and
numeric statistics for any permutation of the rows. -/
theorem c7_permutation_invariance (rows rows' : List RawRow)
    (hp : rows.Perm rows') (k : GeneKey) :
    ((preprocess_excel_cached rows).find? (fun s => decide (keyOfSummary s = k))).map
        numView =
      ((preprocess_excel_cached rows').find? (fun s => decide (keyOfSummary s = k))).map
        numView := by
  rw [preprocess_find?, preprocess_find?]
  have hmem : (k ∈ rows.map keyOfRow) ↔ k ∈ rows'.map keyOfRow :=
    (hp.map keyOfRow).mem_iff
  by_cases hm : k ∈ rows.map keyOfRow
  · rw [if_pos hm, if_pos (hmem.mp hm)]
    exact aggregateKey_numView_perm rows rows' hp k
  · rw [if_neg hm, if_neg (fun h => hm (hmem.mpr h))]

theorem c7_permutation_invariance_witness :
    ([rawG1, rawG2] : List RawRow).Perm [rawG2, rawG1] ∧
    ((preprocess_excel_cached [rawG1, rawG2]).find?
        (fun s => decide (keyOfSummary s = ("G", "", "G")))).map numView =
      ((preprocess_excel_cached [rawG2, rawG1]).find?
        (fun s => decide (keyOfSummary s = ("G", "", "G")))).map numView :=
  ⟨List.Perm.swap rawG2 rawG1 [],
    c7_permutation_invariance [rawG1, rawG2] [rawG2, rawG1]
      (List.Perm.swap rawG2 rawG1 []) ("G", "", "G")⟩

theorem charListLt_asymm : ∀ x y : List Char,
    charListLt x y = true → charListLt y x = false := by
  intro x
  induction x with
  | nil =>
    intro y h
    cases y with
    | nil => exact absurd h (by rw [charListLt]; simp)
    | cons b bs => rw [charListLt]
  | cons a as ih =>
    intro y h
    cases y with
    | nil => rw [charListLt] at h; cases h
    | cons b bs =>
      rw [charListLt] at h ⊢
      by_cases hab : a = b
      · subst hab
        rw [if_pos rfl] at h
        rw [if_pos rfl]
        exact ih bs h
      · rw [if_neg hab] at h
        rw [if_neg (fun hba => hab hba.symm)]
        have hlt : a < b := of_decide_eq_true h
        simpa using lt_asymm hlt

theorem charListLt_connex : ∀ x y : List Char,
    charListLt x y = false → charListLt y x = false → x = y := by
  intro x
  induction x with
  | nil =>
    intro y h1 h2
    cases y with
    | nil => rfl
    | cons b bs => rw [charListLt] at h1; cases h1
  | cons a as ih =>
    intro y h1 h2
    cases y with
    | nil => rw [charListLt] at h2; cases h2
    | cons b bs =>
      rw [charListLt] at h1 h2
      by_cases hab : a = b
      · subst hab
        rw [if_pos rfl] at h1 h2
        rw [ih bs h1 h2]
      · rw [if_neg hab] at h1
        rw [if_neg (fun hba => hab hba.symm)] at h2
        have hnab : ¬ a < b := by simpa using h1
        have hnba : ¬ b < a := by simpa using h2
        exact absurd (le_antisymm (not_lt.mp hnba) (not_lt.mp hnab)) hab

theorem charListLt_trans : ∀ x y z : List Char,
    charListLt x y = true → charListLt y z = true → charListLt x z = true := by
  intro x
  induction x with
  | nil =>
    intro y z h1 h2
    cases y with
    | nil => cases h1
    | cons b bs =>
      cases z with
      | nil => rw [charListLt] at h2; cases h2
      | cons c cs => rw [charListLt]
  | cons a as ih =>
    intro y z h1 h2
    cases y with
    | nil => rw [charListLt] at h1; cases h1
    | cons b bs =>
      cases z with
      | nil => rw [charListLt] at h2; cases h2
      | cons c cs =>
        rw [charListLt] at h1 h2 ⊢
        by_cases hab : a = b <;> by_cases hbc : b = c
        · subst hab; subst hbc
          rw [if_pos rfl] at h1 h2 ⊢
          exact ih bs cs h1 h2
        · subst hab
          rw [if_pos rfl] at h1
          rw [if_neg hbc] at h2
          rw [if_neg hbc]
          exact h2
        · subst hbc
          rw [if_neg hab] at h1
          rw [if_pos rfl] at h2
          rw [if_neg hab]
          exact h1
        · rw [if_neg hab] at h1
          rw [if_neg hbc] at h2
          have hlt1 : a < b := of_decide_eq_true h1
          have hlt2 : b < c := of_decide_eq_true h2
          have hac : a ≠ c := fun h => absurd (h ▸ hlt1) (not_lt.mpr (le_of_lt hlt2))
          rw [if_neg hac]
          simpa using lt_trans hlt1 hlt2

theorem strLeb_total (s t : String) : strLeb s t = true ∨ strLeb t s = true := by
  by_cases h : strLtb t s = true
  · right
    rw [strLeb, strLtb, charListLt_asymm _ _ h]
    rfl
  · left
    rw [strLeb, Bool.eq_false_iff.mpr h]
    rfl

theorem strLeb_of_not_strLeb (s t : String) (h : ¬ strLeb s t = true) : strLeb t s = true := by
  rcases strLeb_total s t with h1 | h1
  · exact absurd h1 h
  · exact h1

theorem strLeb_trans (a b c : String) (h1 : strLeb a b = true) (h2 : strLeb b c = true) :
    strLeb a c = true := by
  rw [strLeb] at h1 h2 ⊢
  have hba : strLtb b a = false := by
    cases hx : strLtb b a
    · rfl
    · rw [hx] at h1; cases h1
  have hcb : strLtb c b = false := by
    cases hx : strLtb c b
    · rfl
    · rw [hx] at h2; cases h2
  have hca : strLtb c a = false := by
    cases hx : strLtb c a
    · rfl
    · cases hbc : strLtb b c
      · have heq : b.data = c.data := charListLt_connex _ _ hbc hcb
        have hx2 : strLtb b a = true := by
          rw [strLtb, heq]
          exact hx
        rw [hx2] at hba
        cases hba
      · have hx2 : strLtb b a = true := charListLt_trans _ _ _ hbc hx
        rw [hx2] at hba
        cases hba
  rw [hca]
  rfl

theorem insertStr_pairwise (s : String) :
    ∀ l : List String, List.Pairwise (fun a b => strLeb a b = true) l →
      List.Pairwise (fun a b => strLeb a b = true) (insertStr s l) := by
  intro l
  induction l with
  | nil => intro _; simp [insertStr]
  | cons t ts ih =>
    intro hp
    rw [insertStr]
    by_cases h : strLeb s t = true
    · rw [if_pos h]
      refine List.Pairwise.cons ?_ hp
      intro x hx
      rcases List.mem_cons.mp hx with rfl | hx
      · exact h
      · exact strLeb_trans s t x h ((List.pairwise_cons.mp hp).1 x hx)
    · rw [if_neg h]
      obtain ⟨hhead, htail⟩ := List.pairwise_cons.mp hp
      refine List.Pairwise.cons ?_ (ih htail)
      intro x hx
      have hx2 := (insertStr_perm s ts).mem_iff.mp hx
      rcases List.mem_cons.mp hx2 with hxeq | hx3
      · rw [hxeq]
        exact strLeb_of_not_strLeb s t h
      · exact hhead x hx3

theorem sortStrings_sorted : ∀ l : List String,
    List.Pairwise (fun a b => strLeb a b = true) (sortStrings l) := by
  intro l
  induction l with
  | nil => simp [sortStrings]
  | cons s ss ih =>
    rw [sortStrings]
    exact insertStr_pairwise s _ ih

theorem insertStr_eq_cons (s : String) (l : List String)
    (h : ∀ x ∈ l, strLeb s x = true) : insertStr s l = s :: l := by
  cases l with
  | nil => rfl
  | cons t ts =>
    rw [insertStr, if_pos (h t (List.mem_cons_self t ts))]

theorem sortStrings_eq_of_sorted : ∀ l : List String,
    List.Pairwise (fun a b => strLeb a b = true) l → sortStrings l = l := by
  intro l
  induction l with
  | nil => intro _; rfl
  | cons s ss ih =>
    intro hp
    obtain ⟨hhead, htail⟩ := List.pairwise_cons.mp hp
    rw [sortStrings, ih htail, insertStr_eq_cons s ss hhead]

theorem dedupByKey_id_eq_self {α : Type} [DecidableEq α] :
    ∀ (l : List α) (seen : List α), l.Nodup → (∀ a ∈ l, a ∉ seen) →
      dedupByKey id seen l = l := by
  intro l
  induction l with
  | nil => intro seen _ _; rfl
  | cons x xs ih =>
    intro seen hnd hns
    rw [dedupByKey]
    simp only [id_eq]
    rw [if_neg (hns x (List.mem_cons_self x xs))]
    obtain ⟨hx, hxs⟩ := List.nodup_cons.mp hnd
    congr 1
    refine ih (x :: seen) hxs ?_
    intro a ha
    rw [List.mem_cons]
    rintro (rfl | hseen)
    · exact hx ha
    · exact hns a (List.mem_cons_of_mem x ha) hseen

theorem dedupFirst_eq_self_of_nodup {α : Type} [DecidableEq α] (l : List α)
    (h : l.Nodup) : dedupFirst l = l := by
  rw [dedupFirst]
  exact dedupByKey_id_eq_self l [] h (by simp)

theorem dedupFirst_nodup {α : Type} [DecidableEq α] (l : List α) :
    (dedupFirst l).Nodup := by
  have h := (nodup_map_dedupByKey (id : α → α) l []).1
  rwa [List.map_id] at h

theorem groupKeys_nodup (es : List (Option String × Option ℚ)) : (groupKeys es).Nodup := by
  rw [groupKeys]
  exact ((sortStrings_perm _).nodup_iff).mpr (dedupFirst_nodup _)

theorem groupKeys_sorted (es : List (Option String × Option ℚ)) :
    List.Pairwise (fun a b => strLeb a b = true) (groupKeys es) :=
  sortStrings_sorted _

theorem roundTo2_idem (q : ℚ) : roundTo2 (roundTo2 q) = roundTo2 q := by
  rw [roundTo2, roundTo2]
  rw [div_mul_cancel₀ ((⌊q * 100 + 1 / 2⌋ : ℚ)) (by norm_num : (100 : ℚ) ≠ 0)]
  rw [Int.floor_int_add]
  norm_num

theorem roundTo2_bounds (x : ℚ) (h0 : 0 ≤ x) (h100 : x ≤ 100) :
    0 ≤ roundTo2 x ∧ roundTo2 x ≤ 100 := by
  rw [roundTo2]
  constructor
  · apply div_nonneg _ (by norm_num : (0:ℚ) ≤ 100)
    have h : (0:ℤ) ≤ ⌊x * 100 + 1/2⌋ := by
      apply Int.floor_nonneg.mpr
      have : (0:ℚ) ≤ x * 100 := mul_nonneg h0 (by norm_num)
      linarith
    exact_mod_cast h
  · rw [div_le_iff₀ (by norm_num : (0:ℚ) < 100)]
    have h1 : ⌊x * 100 + 1/2⌋ ≤ ⌊(20001/2 : ℚ)⌋ := by
      apply Int.floor_le_floor
      nlinarith
    have h2 : ⌊(20001/2 : ℚ)⌋ = 10000 := by norm_num
    have h3 : ((⌊x * 100 + 1/2⌋ : ℤ) : ℚ) ≤ ((10000 : ℤ) : ℚ) := by
      exact_mod_cast h2 ▸ h1
    calc ((⌊x * 100 + 1/2⌋ : ℤ) : ℚ) ≤ ((10000 : ℤ) : ℚ) := h3
      _ = 100 * 100 := by norm_num

theorem mean_bounds (l : List ℚ) (m : ℚ) (hm : meanOpt l = some m)
    (hl : ∀ v ∈ l, 0 ≤ v ∧ v ≤ 100) : 0 ≤ m ∧ m ≤ 100 := by
  cases l with
  | nil => cases hm
  | cons x xs =>
    rw [show meanOpt (x :: xs) = some ((x :: xs).sum / ((x :: xs).length : ℚ)) from rfl] at hm
    injection hm with hm
    subst hm
    have hlen : (0:ℚ) < ((x :: xs).length : ℚ) := by
      have : 0 < (x :: xs).length := Nat.succ_pos _
      exact_mod_cast this
    constructor
    · apply div_nonneg _ (le_of_lt hlen)
      apply List.sum_nonneg
      intro v hv
      exact (hl v hv).1
    · rw [div_le_iff₀ hlen]
      calc (x :: xs).sum ≤ (x :: xs).length • (100:ℚ) :=
            List.sum_le_card_nsmul _ _ (fun v hv => (hl v hv).2)
        _ = 100 * ((x :: xs).length : ℚ) := by
            rw [nsmul_eq_mul]
            ring

/-- C9 amended: non-convertible coverage values become missing and are
excluded from a gene's mean — they are not treated as zero (the
three-row group `{80, text, 100}` averages to 90, not 60) — and every
gene whose group has at least one convertible value in `[0, 100]` gets
a finite mean in `[0, 100]`; but a gene with no convertible value at
all gets a missing mean. -/
theorem c9_conversion_policy (rows : List CovRow) (panel : List String)
    (hall : ∀ e ∈ panelEntries rows panel, ∀ q : ℚ, e.2 = some q → 0 ≤ q ∧ q ≤ 100)
    (g : GroupedRow) (hg : g ∈ panelFilterGroup rows panel) (q : ℚ)
    (hq : g.perc1x = some q) :
    (0 ≤ q ∧ q ≤ 100) ∧
    toNumeric (CellVal.txt "LOW") = none ∧
    panelFilterGroup [covA80, covBadA, covA100] ["A"] =
      [{ gid := "A", perc1x := some 90 }] := by
  refine ⟨?_, rfl, ?_⟩
  · rw [panelFilterGroup] at hg
    obtain ⟨k, hk, rfl⟩ := List.mem_map.mp hg
    dsimp only at hq
    obtain ⟨m, hm, hqm⟩ := Option.map_eq_some'.mp hq
    have hvals : ∀ v ∈ valsFor (panelEntries rows panel) k, 0 ≤ v ∧ v ≤ 100 := by
      intro v hv
      rw [valsFor] at hv
      obtain ⟨e, he, hesnd⟩ := List.mem_filterMap.mp hv
      exact hall e (List.mem_of_mem_filter he) v hesnd
    obtain ⟨h0, h100⟩ := mean_bounds _ _ hm hvals
    rw [← hqm]
    exact roundTo2_bounds m h0 h100
  · have h1 : panelEntries [covA80, covBadA, covA100] ["A"] =
        [(some "A", some 80), (some "A", none), (some "A", some 100)] := by decide
    have h2 : groupKeys [((some "A" : Option String), (some (80 : ℚ) : Option ℚ)),
        (some "A", none), (some "A", some 100)] = ["A"] := by decide
    have h3 : valsFor [((some "A" : Option String), (some (80 : ℚ) : Option ℚ)),
        (some "A", none), (some "A", some 100)] "A" = [80, 100] := by decide
    rw [panelFilterGroup, h1, h2, List.map_cons, List.map_nil, h3]
    norm_num [meanOpt, roundTo2]

theorem c9_conversion_policy_witness :
    ({ gid := "A", perc1x := some 80 } : GroupedRow) ∈ panelFilterGroup [covA80] ["A"] ∧
    (0 ≤ (80 : ℚ) ∧ (80 : ℚ) ≤ 100) := by
  have hv : panelFilterGroup [covA80] ["A"] = [{ gid := "A", perc1x := some 80 }] := by
    have h1 : panelEntries [covA80] ["A"] = [(some "A", some 80)] := by decide
    have h2 : groupKeys [((some "A" : Option String), (some (80 : ℚ) : Option ℚ))] =
        ["A"] := by decide
    have h3 : valsFor [((some "A" : Option String), (some (80 : ℚ) : Option ℚ))] "A" =
        [80] := by decide
    rw [panelFilterGroup, h1, h2, List.map_cons, List.map_nil, h3]
    norm_num [meanOpt, roundTo2]
  have hmem : ({ gid := "A", perc1x := some 80 } : GroupedRow) ∈
      panelFilterGroup [covA80] ["A"] := by
    rw [hv]
    exact List.mem_singleton.mpr rfl
  refine ⟨hmem, (c9_conversion_policy [covA80] ["A"] ?_
    { gid := "A", perc1x := some 80 } hmem 80 rfl).1⟩
  intro e he q hq
  have h1 : panelEntries [covA80] ["A"] = [(some "A", some 80)] := by decide
  rw [h1, List.mem_singleton] at he
  subst he
  dsimp only at hq
  injection hq with hq
  rw [← hq]
  norm_num

theorem toNumeric_reingest (g : GroupedRow) : toNumeric (reingestRow g).cov = g.perc1x := by
  rw [reingestRow]
  cases g.perc1x <;> rfl

theorem resolveID_reingest (g : GroupedRow) : resolveID (reingestRow g) = some g.gid := rfl

theorem keepRow_reingest (panel : List String) (g : GroupedRow) (h : g.gid ∈ panel) :
    keepRow panel (reingestRow g) = true := by
  rw [keepRow, reingestRow]
  simp only [isinPanel, Bool.or_eq_true]
  left
  simpa using h

theorem notIntron_reingest (g : GroupedRow) (h : strStartsWith g.gid "Intron:" = false) :
    notIntron (resolveID (reingestRow g)) = true := by
  rw [resolveID_reingest, notIntron]
  simp [h]

theorem filteredRows_reingest (G : List GroupedRow) (panel : List String)
    (hpanel : ∀ g ∈ G, g.gid ∈ panel)
    (hni : ∀ g ∈ G, strStartsWith g.gid "Intron:" = false) :
    filteredRows (G.map reingestRow) panel = G.map reingestRow := by
  have h1 : (G.map reingestRow).filter (keepRow panel) = G.map reingestRow := by
    apply List.filter_eq_self.mpr
    intro r hr
    obtain ⟨g, hg, rfl⟩ := List.mem_map.mp hr
    exact keepRow_reingest panel g (hpanel g hg)
  rw [filteredRows, h1]
  apply List.filter_eq_self.mpr
  intro r hr
  obtain ⟨g, hg, rfl⟩ := List.mem_map.mp hr
  exact notIntron_reingest g (hni g hg)

theorem panelEntries_reingest (G : List GroupedRow) (panel : List String)
    (hpanel : ∀ g ∈ G, g.gid ∈ panel)
    (hni : ∀ g ∈ G, strStartsWith g.gid "Intron:" = false) :
    panelEntries (G.map reingestRow) panel =
      G.map (fun g => ((some g.gid : Option String), g.perc1x)) := by
  rw [panelEntries, filteredRows_reingest G panel hpanel hni, List.map_map]
  apply List.map_congr_left
  intro g hg
  simp only [Function.comp_apply]
  rw [resolveID_reingest, toNumeric_reingest]

theorem valsFor_skip (k : String) (G : List GroupedRow) (hk : k ∉ G.map GroupedRow.gid) :
    (G.map (fun g => ((some g.gid : Option String), g.perc1x))).filter
      (fun e => decide (e.1 = some k)) = [] := by
  induction G with
  | nil => rfl
  | cons g gs ih =>
    rw [List.map_cons, List.filter_cons]
    have hkg : k ∉ List.map GroupedRow.gid gs := by
      intro h
      exact hk (by rw [List.map_cons]; exact List.mem_cons_of_mem g.gid h)
    have hne : g.gid ≠ k := by
      intro h
      exact hk (by rw [List.map_cons, h]; exact List.mem_cons_self k _)
    rw [if_neg (by simp [hne]), ih hkg]

theorem meanOpt_singleton (q : ℚ) : meanOpt [q] = some q := by
  rw [show meanOpt [q] = some (([q] : List ℚ).sum / (([q] : List ℚ).length : ℚ)) from rfl]
  norm_num

theorem filter_entry_unique : ∀ (G : List GroupedRow), (G.map GroupedRow.gid).Nodup →
    ∀ g ∈ G, (G.map (fun x => ((some x.gid : Option String), x.perc1x))).filter
      (fun e => decide (e.1 = some g.gid)) =
      [((some g.gid : Option String), g.perc1x)] := by
  intro G
  induction G with
  | nil => intro _ g hg; cases hg
  | cons h hs ih =>
    intro hnd g hg
    rw [List.map_cons, List.nodup_cons] at hnd
    obtain ⟨hhead, htail⟩ := hnd
    rw [List.map_cons, List.filter_cons]
    rcases List.mem_cons.mp hg with rfl | hg2
    · rw [if_pos (by simp), valsFor_skip g.gid hs hhead]
    · have hne : h.gid ≠ g.gid := by
        intro he
        apply hhead
        rw [he]
        exact List.mem_map.mpr ⟨g, hg2, rfl⟩
      rw [if_neg (by simp [hne])]
      exact ih htail g hg2

theorem reingest_group_eval (G : List GroupedRow)
    (hnd : (G.map GroupedRow.gid).Nodup)
    (hround : ∀ g ∈ G, ∀ q, g.perc1x = some q → roundTo2 q = q) :
    (G.map GroupedRow.gid).map (fun k =>
      ({ gid := k
         perc1x := (meanOpt (valsFor
           (G.map (fun g => ((some g.gid : Option String), g.perc1x))) k)).map
             roundTo2 } : GroupedRow)) = G := by
  rw [List.map_map]
  have hpt : ∀ g ∈ G,
      ({ gid := g.gid
         perc1x := (meanOpt (valsFor
           (G.map (fun g => ((some g.gid : Option String), g.perc1x))) g.gid)).map
             roundTo2 } : GroupedRow) = g := by
    intro g hg
    have hf := filter_entry_unique G hnd g hg
    rw [valsFor, hf]
    cases hp : g.perc1x with
    | some q =>
      rw [show (List.filterMap Prod.snd
          [((some g.gid : Option String), (some q : Option ℚ))]) = [q] from rfl]
      rw [meanOpt_singleton, Option.map_some', hround g hg q hp, ← hp]
    | none =>
      rw [show (List.filterMap Prod.snd
          [((some g.gid : Option String), (none : Option ℚ))]) = ([] : List ℚ) from rfl]
      rw [show (meanOpt []).map roundTo2 = (none : Option ℚ) from rfl, ← hp]
  calc G.map _ = G.map id := List.map_congr_left (fun g hg => hpt g hg)
    _ = G := List.map_id G

theorem panelFilterGroup_gids (rows : List CovRow) (panel : List String) :
    (panelFilterGroup rows panel).map GroupedRow.gid =
      groupKeys (panelEntries rows panel) := by
  rw [panelFilterGroup, List.map_map]
  exact (List.map_congr_left (fun k _ => rfl)).trans (List.map_id _)

theorem panelFilterGroup_no_intron (rows : List CovRow) (panel : List String)
    (g : GroupedRow) (hg : g ∈ panelFilterGroup rows panel) :
    strStartsWith g.gid "Intron:" = false := by
  rw [panelFilterGroup] at hg
  obtain ⟨k, hk, rfl⟩ := List.mem_map.mp hg
  rw [mem_groupKeys] at hk
  obtain ⟨e, he, hfst⟩ := List.mem_map.mp hk
  rw [panelEntries] at he
  obtain ⟨r, hr, rfl⟩ := List.mem_map.mp he
  dsimp only at hfst
  rw [filteredRows] at hr
  have hni := (List.mem_filter.mp hr).2
  rw [hfst] at hni
  rw [notIntron] at hni
  simp only [Option.getD_some] at hni
  dsimp only
  simpa using hni

theorem panelFilterGroup_perc_rounded (rows : List CovRow) (panel : List String)
    (g : GroupedRow) (hg : g ∈ panelFilterGroup rows panel) (q : ℚ)
    (hq : g.perc1x = some q) : roundTo2 q = q := by
  rw [panelFilterGroup] at hg
  obtain ⟨k, hk, rfl⟩ := List.mem_map.mp hg
  dsimp only at hq
  obtain ⟨m, hm, hqm⟩ := Option.map_eq_some'.mp hq
  rw [← hqm]
  exact roundTo2_idem m

theorem panelFilterGroup_fixpoint (panel : List String) (G : List GroupedRow)
    (hnd : (G.map GroupedRow.gid).Nodup)
    (hsorted : List.Pairwise (fun a b => strLeb a b = true) (G.map GroupedRow.gid))
    (hni : ∀ g ∈ G, strStartsWith g.gid "Intron:" = false)
    (hpanel : ∀ g ∈ G, g.gid ∈ panel)
    (hround : ∀ g ∈ G, ∀ q, g.perc1x = some q → roundTo2 q = q) :
    panelFilterGroup (G.map reingestRow) panel = G := by
  have hes := panelEntries_reingest G panel hpanel hni
  have hkeys : groupKeys (G.map (fun g => ((some g.gid : Option String), g.perc1x))) =
      G.map GroupedRow.gid := by
    rw [groupKeys]
    have h1 : ∀ H : List GroupedRow,
        (H.map (fun g => ((some g.gid : Option String), g.perc1x))).filterMap
          Prod.fst = H.map GroupedRow.gid := by
      intro H
      induction H with
      | nil => rfl
      | cons x xs ihx =>
        rw [List.map_cons, List.map_cons, List.filterMap_cons]
        dsimp only
        rw [ihx]
    rw [h1 G, dedupFirst_eq_self_of_nodup _ hnd, sortStrings_eq_of_sorted _ hsorted]
  rw [panelFilterGroup, hes, hkeys]
  exact reingest_group_eval G hnd hround

/-- C8: the Panel Filter and Grouper is idempotent — re-running it on
its own output (one row per identifier, re-supplied as a coverage
table whose identifiers match the panel) returns the same rows
unchanged. -/
theorem c8_filter_group_idempotent (rows : List CovRow) (panel : List String)
    (hp : ∀ g ∈ panelFilterGroup rows panel, g.gid ∈ panel) :
    panelFilterGroup ((panelFilterGroup rows panel).map reingestRow) panel =
      panelFilterGroup rows panel := by
  apply panelFilterGroup_fixpoint
  · rw [panelFilterGroup_gids]
    exact groupKeys_nodup _
  · rw [panelFilterGroup_gids]
    exact groupKeys_sorted _
  · intro g hg
    exact panelFilterGroup_no_intron rows panel g hg
  · exact hp
  · intro g hg q hq
    exact panelFilterGroup_perc_rounded rows panel g hg q hq

theorem c8_filter_group_idempotent_witness :
    panelFilterGroup ((panelFilterGroup [covBadA] ["A"]).map reingestRow) ["A"] =
      panelFilterGroup [covBadA] ["A"] :=
  c8_filter_group_idempotent [covBadA] ["A"] (by decide)

end GenePanel
